import Mathlib

/-!
Verification of the frame-stacking state wrapper in
`all/bodies/vision.py` (`FrameStack` and `LazyState`).

Observations are modelled as nested lists: an observation (`Obs γ`) is a
tensor viewed as its dimension-0 (batch) list of dimension-1 (channel)
lists, each channel entry being an opaque payload of type `γ` (any deeper
spatial dimensions are folded into `γ`).  `torch.cat(frames, dim=1)`
concatenates the channel lists row by row.
-/

set_option autoImplicit false

namespace VisionBody

/-- An observation tensor: dimension 0 (batch) is the outer list, dimension 1
(channels) the inner list; deeper dimensions are folded into `γ`. -/
abbrev Obs (γ : Type) := List (List γ)

/-- Modelled from the spec: the class `all.environments.State` is imported by
`vision.py` but its module is not part of this repository snapshot.  Per the
spec's data model, a State is an immutable `(raw, mask, info)` tuple; `raw` is
polymorphic (a tensor for ordinary states).  `mask` and `info` are opaque
here. -/
structure State (ρ μ ι : Type) where
  raw : ρ
  mask : μ
  info : ι
  deriving DecidableEq, Repr

/-- Modelled from the spec: the eager variant's length contract — `len(state)`
reports the batch-dimension size, i.e. the length of dimension 0 of `raw`. -/
def State.len {γ μ ι : Type} (s : State (Obs γ) μ ι) : Nat :=
  s.raw.length

/-- `torch.cat(frames, dim=1)` on the list model: row `i` of the result is the
concatenation of row `i` of every frame.  Total on ragged input (where torch
would raise); the claims are stated under shape hypotheses that rule raggedness
out. -/
def catDim1 {γ : Type} : List (Obs γ) → Obs γ
  | [] => []
  | [f] => f
  | f :: g :: gs => List.zipWith (fun r₁ r₂ => r₁ ++ r₂) f (catDim1 (g :: gs))

/-- `LazyState(State)` from `vision.py`: a State subclass whose `_raw` field
holds the un-concatenated list of window frames. -/
structure LazyState (γ μ ι : Type) where
  raw : List (Obs γ)
  mask : μ
  info : ι
  deriving DecidableEq, Repr

/-- `LazyState.features`: `torch.cat(self._raw, dim=1)`, recomputed on every
access. -/
def LazyState.features {γ μ ι : Type} (s : LazyState γ μ ι) : Obs γ :=
  catDim1 s.raw

/-- `LazyState.__len__`: `len(self._raw[0])`, the batch-dimension size of the
first frame of the window (`getD` stands in for the indexing that would raise
on an empty window, a case excluded by the claims' hypotheses). -/
def LazyState.len {γ μ ι : Type} (s : LazyState γ μ ι) : Nat :=
  (s.raw.getD 0 []).length

/-- The composite state handed to the wrapped agent: `FrameStack.act` builds
either a plain `State` (eager) or a `LazyState` (lazy), both consumed through
the same duck-typed agent interface. -/
inductive Composite (γ μ ι : Type) where
  | eager : State (Obs γ) μ ι → Composite γ μ ι
  | lazy : LazyState γ μ ι → Composite γ μ ι
  deriving DecidableEq, Repr

/-- Mask field of a composite state (both variants store it verbatim). -/
def Composite.maskOf {γ μ ι : Type} : Composite γ μ ι → μ
  | .eager s => s.mask
  | .lazy s => s.mask

/-- Info field of a composite state (both variants store it verbatim). -/
def Composite.infoOf {γ μ ι : Type} : Composite γ μ ι → ι
  | .eager s => s.info
  | .lazy s => s.info

/-- The materialized observation carried by a composite state: the eager
variant's `raw`, or the lazy variant's `features` (its concatenation on
demand). -/
def Composite.rawVal {γ μ ι : Type} : Composite γ μ ι → Obs γ
  | .eager s => s.raw
  | .lazy s => LazyState.features s

/-- `FrameStack(Body)`: wraps an agent (modelled as its `act` capability
`composite state → reward → action`), a window size (a Python `int`, hence
`Int`), the `lazy` flag and the current `_frames` window. -/
structure FrameStack (γ μ ι ρ β : Type) where
  agent : Composite γ μ ι → ρ → β
  size : Int
  lazy : Bool
  frames : List (Obs γ)

/-- `FrameStack.__init__(agent, size=4, lazy=False)`: stores the fields and
sets `_frames = []`.  It performs no validation of `size`; the `Except` result
makes a construction-time failure statable, and the body shows none occurs. -/
def FrameStack.init {γ μ ι ρ β : Type} (agent : Composite γ μ ι → ρ → β)
    (size : Int) (lz : Bool) : Except String (FrameStack γ μ ι ρ β) :=
  Except.ok ⟨agent, size, lz, []⟩

/-- The window update of `FrameStack.act` (lines 13–16): `[state.raw] *
self._size` when `_frames` is empty (Python list replication yields `[]` for a
non-positive count, hence `Int.toNat`), else `self._frames[1:] +
[state.raw]`. -/
def stepFrames {γ : Type} (size : Int) (frames : List (Obs γ)) (raw : Obs γ) :
    List (Obs γ) :=
  if frames.isEmpty then List.replicate size.toNat raw
  else frames.drop 1 ++ [raw]

/-- The composite-state construction of `FrameStack.act` (lines 18–21):
`LazyState(self._frames, state.mask, state.info)` when lazy, else
`State(torch.cat(self._frames, dim=1), state.mask, state.info)`. -/
def mkComposite {γ μ ι : Type} (lz : Bool) (frames : List (Obs γ))
    (s : State (Obs γ) μ ι) : Composite γ μ ι :=
  if lz then .lazy ⟨frames, s.mask, s.info⟩
  else .eager ⟨catDim1 frames, s.mask, s.info⟩

/-- `FrameStack.act(state, reward)`: update the window, build the composite
state, delegate to `self.agent.act(state, reward)` and return its result.  The
updated wrapper is returned alongside the action to make the mutation of
`_frames` explicit. -/
def FrameStack.act {γ μ ι ρ β : Type} (fs : FrameStack γ μ ι ρ β)
    (state : State (Obs γ) μ ι) (reward : ρ) : FrameStack γ μ ι ρ β × β :=
  let frames := stepFrames fs.size fs.frames state.raw
  let comp := mkComposite fs.lazy frames state
  ({ fs with frames := frames }, fs.agent comp reward)

/-- Repeated `act` calls: feed a list of `(state, reward)` pairs and collect
the returned actions in order. -/
def FrameStack.run {γ μ ι ρ β : Type} :
    FrameStack γ μ ι ρ β → List (State (Obs γ) μ ι × ρ) → List β
  | _, [] => []
  | fs, p :: rest => (fs.act p.1 p.2).2 :: (fs.act p.1 p.2).1.run rest

/-- A FrameStack whose wrapped agent is a probe that returns the composite
state it was handed (the spec's stub agent that records its inputs). -/
def probeFS {γ μ ι ρ : Type} (size : Int) (lz : Bool) (frames : List (Obs γ)) :
    FrameStack γ μ ι ρ (Composite γ μ ι) :=
  ⟨fun c _ => c, size, lz, frames⟩

/-- The window after each successive `act` call, starting from `frames` and
consuming the raw observations in order. -/
def framesSeq {γ : Type} (size : Int) (frames : List (Obs γ)) :
    List (Obs γ) → List (List (Obs γ))
  | [] => []
  | o :: rest => stepFrames size frames o :: framesSeq size (stepFrames size frames o) rest

/-- The window after a whole sequence of `act` calls. -/
def runFrames {γ : Type} (size : Int) (frames : List (Obs γ))
    (obs : List (Obs γ)) : List (Obs γ) :=
  obs.foldl (stepFrames size) frames

/-!
A small heap model of Python list objects, used for the non-aliasing claim.
`self._frames = []`, `[state.raw] * self._size` and `self._frames[1:] +
[state.raw]` each allocate a fresh list object and rebind `self._frames`;
no list reachable from an already emitted `LazyState` is ever mutated.  A
heap is the allocation-ordered list of list objects; an address is an index
into it; `LazyState(self._frames, ...)` stores the address of the current
window object.
-/

/-- Heap of allocated Python list objects (each a frame window). -/
abbrev FHeap (γ : Type) := List (List (Obs γ))

/-- The window update of `FrameStack.act` in the heap model: read the window
object at `addr`, build the updated window as a fresh allocation, and return
the new heap together with the address of the fresh object (which `act` both
stores in `self._frames` and, in lazy mode, hands to the emitted
`LazyState`). -/
def heapAct {γ : Type} (size : Int) (h : FHeap γ) (addr : Nat) (raw : Obs γ) :
    FHeap γ × Nat :=
  (h ++ [stepFrames size (h.getD addr []) raw], h.length)

/-- `LazyState.features` in the heap model: concatenate the frames of the list
object at `addr`. -/
def featuresAt {γ : Type} (h : FHeap γ) (addr : Nat) : Obs γ :=
  catDim1 (h.getD addr [])

lemma stepFrames_cons {γ : Type} (size : Int) (f : Obs γ) (fr : List (Obs γ))
    (o : Obs γ) : stepFrames size (f :: fr) o = fr ++ [o] := by
  simp [stepFrames]

lemma stepFrames_ne_nil {γ : Type} (size : Int) {frames : List (Obs γ)}
    (o : Obs γ) (hs : 1 ≤ size) : stepFrames size frames o ≠ [] := by
  cases frames with
  | nil =>
      have h1 : 1 ≤ size.toNat := by omega
      simp [stepFrames]
      omega
  | cons f fr => simp [stepFrames]

lemma runFrames_of_ne_nil {γ : Type} (size : Int) :
    ∀ (obs : List (Obs γ)) (frames : List (Obs γ)), frames ≠ [] →
      runFrames size frames obs = (frames ++ obs).drop obs.length
  | [], frames, _ => by simp [runFrames]
  | o :: rest, [], h => absurd rfl h
  | o :: rest, f :: fr, _ => by
      have ih := runFrames_of_ne_nil size rest (fr ++ [o]) (by simp)
      calc runFrames size (f :: fr) (o :: rest)
          = runFrames size (stepFrames size (f :: fr) o) rest := by
            simp [runFrames, List.foldl_cons]
        _ = ((fr ++ [o]) ++ rest).drop rest.length := by
            rw [stepFrames_cons]; exact ih
        _ = ((f :: fr) ++ (o :: rest)).drop (o :: rest).length := by
            simp [List.append_assoc]

/-- C1: for every window size `size ≥ 1` and every sequence of `act` calls
carrying raw observations `o, rest...`, the window after the last call equals
the last `size` elements of the sequence made of `size` copies of `o` followed
by `rest` (the first call replicates its observation, every later call drops
the oldest entry and appends the newest).  Applied to every prefix of a run,
this gives the window after each intermediate call as well. -/
theorem C1_window_is_suffix {γ : Type} (size : Int) (o : Obs γ)
    (rest : List (Obs γ)) (hs : 1 ≤ size) :
    runFrames size [] (o :: rest) =
      (List.replicate size.toNat o ++ rest).drop
        ((List.replicate size.toNat o ++ rest).length - size.toNat) := by
  have h1 : 1 ≤ size.toNat := by omega
  have hne : List.replicate size.toNat o ≠ [] := by
    intro h
    have hlen := congrArg List.length h
    simp at hlen
    omega
  have hstep : runFrames size [] (o :: rest) =
      runFrames size (List.replicate size.toNat o) rest := by
    simp [runFrames, List.foldl_cons, stepFrames]
  rw [hstep, runFrames_of_ne_nil size rest _ hne]
  congr 1
  simp

/-- Witness for C1 at `size = 2` and observations `a, b, c`: the final window
is `[b, c]`. -/
theorem C1_witness :
    (1 : Int) ≤ 2 ∧
      runFrames 2 [] [([[1]] : Obs Nat), [[2]], [[3]]] =
        (List.replicate (2 : Int).toNat ([[1]] : Obs Nat) ++ [[[2]], [[3]]]).drop
          ((List.replicate (2 : Int).toNat ([[1]] : Obs Nat) ++
            [[[2]], [[3]]]).length - (2 : Int).toNat) :=
  ⟨by decide, C1_window_is_suffix 2 [[1]] [[[2]], [[3]]] (by decide)⟩

/-- C3: the lazy composite state emitted at step `t` is a snapshot independent
of later window updates: in the heap model, `(h₁, a₁)` is the heap and window
address right after the step-`t` call (the emitted `LazyState` holds `a₁`),
and performing the step-`t+1` call leaves the value of `features` at `a₁`
unchanged, because both window-update forms allocate a fresh list instead of
mutating the one the `LazyState` aliases. -/
theorem C3_snapshot_independence {γ : Type} (size : Int) (h₀ : FHeap γ)
    (a₀ : Nat) (r₀ r₁ : Obs γ) :
    featuresAt (heapAct size (heapAct size h₀ a₀ r₀).1 (heapAct size h₀ a₀ r₀).2 r₁).1
        (heapAct size h₀ a₀ r₀).2 =
      featuresAt (heapAct size h₀ a₀ r₀).1 (heapAct size h₀ a₀ r₀).2 := by
  have hlt : h₀.length < (h₀ ++ [stepFrames size (h₀.getD a₀ []) r₀]).length := by
    simp
  simp only [heapAct, featuresAt]
  rw [List.getD_append _ _ _ _ hlt]

/-- C5: `FrameStack.act` returns exactly what the wrapped agent's `act`
returns on the composite state and the original, unmodified reward: the
action comes back unchanged and the reward is delegated verbatim. -/
theorem C5_delegation {γ μ ι ρ β : Type} (fs : FrameStack γ μ ι ρ β)
    (s : State (Obs γ) μ ι) (r : ρ) :
    (fs.act s r).2 =
      fs.agent (mkComposite fs.lazy (stepFrames fs.size fs.frames s.raw) s) r :=
  rfl

lemma run_probe_lazy_eager {γ μ ι ρ : Type} (size : Int) :
    ∀ (inputs : List (State (Obs γ) μ ι × ρ)) (frames : List (Obs γ)) (t : Nat)
      (ls : LazyState γ μ ι) (es : State (Obs γ) μ ι),
      (FrameStack.run (probeFS size true frames) inputs)[t]? =
        some (Composite.lazy ls) →
      (FrameStack.run (probeFS size false frames) inputs)[t]? =
        some (Composite.eager es) →
      LazyState.features ls = es.raw
  | [], _, t, ls, es => by simp [FrameStack.run]
  | p :: rest, frames, 0, ls, es => by
      intro h1 h2
      simp [FrameStack.run, FrameStack.act, probeFS, mkComposite] at h1 h2
      rw [← h1, ← h2]
      rfl
  | p :: rest, frames, t + 1, ls, es => by
      intro h1 h2
      simp only [FrameStack.run, FrameStack.act, probeFS,
        List.getElem?_cons_succ] at h1 h2
      exact run_probe_lazy_eager size rest
        (stepFrames size frames p.1.raw) t ls es h1 h2

/-- C2: eager/lazy equivalence — feeding the same input sequence to a lazy
FrameStack and to an eager FrameStack with the same size, at every step the
`features` of the emitted `LazyState` equal, element for element, the `raw`
of the corresponding eager composite state. -/
theorem C2_lazy_eager_equivalence {γ μ ι ρ : Type} (size : Int)
    (inputs : List (State (Obs γ) μ ι × ρ)) (t : Nat)
    (ls : LazyState γ μ ι) (es : State (Obs γ) μ ι)
    (hl : (FrameStack.run (probeFS size true []) inputs)[t]? =
      some (Composite.lazy ls))
    (he : (FrameStack.run (probeFS size false []) inputs)[t]? =
      some (Composite.eager es)) :
    LazyState.features ls = es.raw :=
  run_probe_lazy_eager size inputs [] t ls es hl he

/-- Concrete two-call input sequence (masks 1) used by witnesses. -/
def wIn1 : List (State (Obs Nat) Nat Unit × Nat) :=
  [(⟨[[1]], 1, ()⟩, 0), (⟨[[2]], 1, ()⟩, 0)]

/-- The same raw observations as `wIn1` but with masks 0 (terminated). -/
def wIn0 : List (State (Obs Nat) Nat Unit × Nat) :=
  [(⟨[[1]], 0, ()⟩, 0), (⟨[[2]], 0, ()⟩, 0)]

/-- Concrete two-call input sequence with observations `[[5]]`, `[[7]]`. -/
def wIn57 : List (State (Obs Nat) Nat Unit × Nat) :=
  [(⟨[[5]], 1, ()⟩, 0), (⟨[[7]], 1, ()⟩, 0)]

/-- Witness for C2 at `size = 2`, observations `[[1]]` then `[[2]]`, step 1:
the lazy window is `[[[1]], [[2]]]` and its features equal the eager raw
`[[1, 2]]`. -/
theorem C2_witness :
    (FrameStack.run (probeFS 2 true []) wIn1)[1]? =
      some (Composite.lazy ⟨[[[1]], [[2]]], 1, ()⟩) ∧
    (FrameStack.run (probeFS 2 false []) wIn1)[1]? =
      some (Composite.eager ⟨[[1, 2]], 1, ()⟩) ∧
    LazyState.features (⟨[[[1]], [[2]]], 1, ()⟩ : LazyState Nat Nat Unit) =
      (⟨[[1, 2]], 1, ()⟩ : State (Obs Nat) Nat Unit).raw :=
  ⟨by decide, by decide,
    C2_lazy_eager_equivalence 2 wIn1 1 ⟨[[[1]], [[2]]], 1, ()⟩ ⟨[[1, 2]], 1, ()⟩
      (by decide) (by decide)⟩

lemma run_probe_rawVal_raw_only {γ μ ι ρ : Type} (size : Int) (lz : Bool) :
    ∀ (inputs₁ inputs₂ : List (State (Obs γ) μ ι × ρ)) (frames : List (Obs γ)),
      inputs₁.map (fun p => p.1.raw) = inputs₂.map (fun p => p.1.raw) →
      (FrameStack.run (probeFS size lz frames) inputs₁).map Composite.rawVal =
        (FrameStack.run (probeFS size lz frames) inputs₂).map Composite.rawVal
  | [], [], _, _ => rfl
  | [], _ :: _, _, h => by simp at h
  | _ :: _, [], _, h => by simp at h
  | p :: r₁, q :: r₂, frames, h => by
      simp only [List.map_cons, List.cons.injEq] at h
      have ih := run_probe_rawVal_raw_only size lz r₁ r₂
        (stepFrames size frames p.1.raw) h.2
      rw [h.1] at ih
      simp only [FrameStack.run, FrameStack.act, probeFS, List.map_cons, h.1,
        List.cons.injEq]
      refine ⟨?_, ih⟩
      cases lz <;> simp [mkComposite, Composite.rawVal, LazyState.features]

/-- C9: the window update is independent of the episode mask (and of `info`
and the reward): two act-call sequences with identical raw observations but
arbitrarily different masks yield identical window traces and identical
composite raw/features values; in particular `mask = 0` does not clear the
window. -/
theorem C9_mask_independence {γ μ ι ρ : Type} (size : Int) (lz : Bool)
    (frames : List (Obs γ)) (inputs₁ inputs₂ : List (State (Obs γ) μ ι × ρ))
    (hraw : inputs₁.map (fun p => p.1.raw) = inputs₂.map (fun p => p.1.raw)) :
    (FrameStack.run (probeFS size lz frames) inputs₁).map Composite.rawVal =
      (FrameStack.run (probeFS size lz frames) inputs₂).map Composite.rawVal ∧
    framesSeq size frames (inputs₁.map (fun p => p.1.raw)) =
      framesSeq size frames (inputs₂.map (fun p => p.1.raw)) :=
  ⟨run_probe_rawVal_raw_only size lz inputs₁ inputs₂ frames hraw, by rw [hraw]⟩

/-- Witness for C9: two single-call sequences whose states differ only in the
mask (1, episode live, versus 0, episode terminated) produce the same
composite raw values and the same window trace. -/
theorem C9_witness :
    wIn1.map (fun p => p.1.raw) = wIn0.map (fun p => p.1.raw) ∧
    ((FrameStack.run (probeFS 2 false []) wIn1).map Composite.rawVal =
        (FrameStack.run (probeFS 2 false []) wIn0).map Composite.rawVal ∧
      framesSeq 2 [] (wIn1.map (fun p => p.1.raw)) =
        framesSeq 2 [] (wIn0.map (fun p => p.1.raw))) :=
  ⟨by decide, C9_mask_independence 2 false [] wIn1 wIn0 (by decide)⟩

lemma run_probe_size_one {γ μ ι ρ : Type} :
    ∀ (inputs : List (State (Obs γ) μ ι × ρ)) (frames : List (Obs γ)) (t : Nat)
      (c : Composite γ μ ι) (p : State (Obs γ) μ ι × ρ),
      frames.length ≤ 1 →
      (FrameStack.run (probeFS 1 false frames) inputs)[t]? = some c →
      inputs[t]? = some p →
      Composite.rawVal c = p.1.raw
  | [], _, t, c, p => by simp [FrameStack.run]
  | q :: rest, frames, 0, c, p => by
      intro hlen h1 h2
      simp only [FrameStack.run, FrameStack.act, probeFS, mkComposite,
        List.getElem?_cons_zero, Option.some.injEq] at h1 h2
      rw [← h1, ← h2]
      have hone : stepFrames 1 frames q.1.raw = [q.1.raw] := by
        match frames, hlen with
        | [], _ => rfl
        | [x], _ => rfl
      simp [Composite.rawVal, hone, catDim1]
  | q :: rest, frames, t + 1, c, p => by
      intro hlen h1 h2
      simp only [FrameStack.run, FrameStack.act, probeFS,
        List.getElem?_cons_succ] at h1 h2
      have hone : (stepFrames 1 frames q.1.raw).length = 1 := by
        match frames, hlen with
        | [], _ => rfl
        | [x], _ => rfl
      exact run_probe_size_one rest (stepFrames 1 frames q.1.raw) t c p
        (le_of_eq hone) h1 h2

/-- C10: for window size 1 in eager mode, FrameStack is an identity wrapper on
the raw field: at every step (the first included) the composite state's raw —
the concatenation of the one-element window — equals the current raw
observation, so the wrapped agent sees the raw observation stream. -/
theorem C10_size_one_identity {γ μ ι ρ : Type}
    (inputs : List (State (Obs γ) μ ι × ρ)) (t : Nat)
    (c : Composite γ μ ι) (p : State (Obs γ) μ ι × ρ)
    (hc : (FrameStack.run (probeFS 1 false []) inputs)[t]? = some c)
    (hp : inputs[t]? = some p) :
    Composite.rawVal c = p.1.raw :=
  run_probe_size_one inputs [] t c p (by simp) hc hp

/-- Witness for C10: with size 1, at step 1 of a two-call run the eager
composite's raw equals the second observation `[[7]]`. -/
theorem C10_witness :
    (FrameStack.run (probeFS 1 false []) wIn57)[1]? =
      some (Composite.eager ⟨[[7]], 1, ()⟩) ∧
    wIn57[1]? = some (⟨[[7]], 1, ()⟩, 0) ∧
    Composite.rawVal
        (Composite.eager (⟨[[7]], 1, ()⟩ : State (Obs Nat) Nat Unit)) =
      (⟨[[7]], 1, ()⟩ : State (Obs Nat) Nat Unit).raw :=
  ⟨by decide, by decide,
    C10_size_one_identity wIn57 1 (Composite.eager ⟨[[7]], 1, ()⟩)
      (⟨[[7]], 1, ()⟩, 0) (by decide) (by decide)⟩

/-- C6: in both eager and lazy mode, the composite state handed to the
wrapped agent carries the incoming state's `mask` and `info` unchanged
(observed through a probe agent that returns the composite it is handed). -/
theorem C6_mask_info_passthrough {γ μ ι ρ : Type} (size : Int) (lz : Bool)
    (frames : List (Obs γ)) (s : State (Obs γ) μ ι) (r : ρ) :
    Composite.maskOf (((probeFS size lz frames).act s r).2) = s.mask ∧
    Composite.infoOf (((probeFS size lz frames).act s r).2) = s.info := by
  cases lz <;>
    simp [FrameStack.act, probeFS, mkComposite, Composite.maskOf, Composite.infoOf]

lemma exists_mem_of_mem_zipWith {α β δ : Type} (g : α → β → δ) :
    ∀ (l₁ : List α) (l₂ : List β) (x : δ), x ∈ List.zipWith g l₁ l₂ →
      ∃ a ∈ l₁, ∃ b ∈ l₂, x = g a b
  | [], _, _, h => by simp at h
  | _ :: _, [], _, h => by simp at h
  | a :: l₁, b :: l₂, x, h => by
      simp only [List.zipWith_cons_cons, List.mem_cons] at h
      cases h with
      | inl h => exact ⟨a, by simp, b, by simp, h⟩
      | inr h =>
          obtain ⟨a', ha, b', hb, hx⟩ := exists_mem_of_mem_zipWith g l₁ l₂ x h
          exact ⟨a', by simp [ha], b', by simp [hb], hx⟩

lemma catDim1_length {γ : Type} {b : Nat} :
    ∀ (frames : List (Obs γ)), frames ≠ [] → (∀ f ∈ frames, f.length = b) →
      (catDim1 frames).length = b
  | [], h, _ => absurd rfl h
  | [f], _, hb => hb f (by simp)
  | f :: g :: gs, _, hb => by
      have ih := catDim1_length (g :: gs) (by simp)
        (fun x hx => hb x (List.mem_cons_of_mem f hx))
      have hf : f.length = b := hb f (by simp)
      simp [catDim1, hf, ih]

lemma catDim1_row_length {γ : Type} {c : Nat} :
    ∀ (frames : List (Obs γ)), (∀ f ∈ frames, ∀ r ∈ f, r.length = c) →
      ∀ r ∈ catDim1 frames, r.length = frames.length * c
  | [], _, r, hr => by simp [catDim1] at hr
  | [f], hc, r, hr => by
      have hrf : r ∈ f := by simpa [catDim1] using hr
      have := hc f (by simp) r hrf
      simpa using this
  | f :: g :: gs, hc, r, hr => by
      have hmem : r ∈ List.zipWith (fun r₁ r₂ => r₁ ++ r₂) f (catDim1 (g :: gs)) := by
        simpa [catDim1] using hr
      obtain ⟨a, ha, b, hb, hx⟩ :=
        exists_mem_of_mem_zipWith _ f (catDim1 (g :: gs)) r hmem
      have hlena : a.length = c := hc f (by simp) a ha
      have hlenb : b.length = (g :: gs).length * c :=
        catDim1_row_length (g :: gs)
          (fun x hx => hc x (List.mem_cons_of_mem f hx)) b hb
      subst hx
      rw [List.length_append, hlena, hlenb]
      simp [List.length_cons]
      ring

lemma mem_stepFrames {γ : Type} (size : Int) (frames : List (Obs γ))
    (o x : Obs γ) (hx : x ∈ stepFrames size frames o) : x ∈ frames ∨ x = o := by
  unfold stepFrames at hx
  by_cases h : frames.isEmpty
  · simp [h] at hx
    exact Or.inr hx.2
  · simp [h] at hx
    cases hx with
    | inl h' => exact Or.inl (List.mem_of_mem_tail h')
    | inr h' => exact Or.inr h'

lemma stepFrames_length {γ : Type} (size : Int) (frames : List (Obs γ))
    (o : Obs γ) :
    (stepFrames size frames o).length =
      if frames.isEmpty then size.toNat else frames.length := by
  cases frames <;> simp [stepFrames]

/-- C4: `len` of the composite state equals the batch-dimension size of a
single observation (the sample count of the first window frame), independent
of `size`, and agrees between the eager and the lazy representation: for any
window whose frames all have batch size `b` and an incoming observation of
batch size `b`, the eager composite built by `act` has `len = b` and so does
the lazy one. -/
theorem C4_length_contract {γ μ ι : Type} (size : Int) (frames : List (Obs γ))
    (s : State (Obs γ) μ ι) (b : Nat) (hs : 1 ≤ size)
    (hb : s.raw.length = b) (hf : ∀ f ∈ frames, f.length = b) :
    State.len (⟨catDim1 (stepFrames size frames s.raw), s.mask, s.info⟩ :
        State (Obs γ) μ ι) = b ∧
    LazyState.len (⟨stepFrames size frames s.raw, s.mask, s.info⟩ :
        LazyState γ μ ι) = b := by
  have hall : ∀ f ∈ stepFrames size frames s.raw, f.length = b := by
    intro f hf'
    rcases mem_stepFrames size frames s.raw f hf' with h | h
    · exact hf f h
    · rw [h]; exact hb
  have hne : stepFrames size frames s.raw ≠ [] :=
    stepFrames_ne_nil size s.raw hs
  constructor
  · exact catDim1_length _ hne hall
  · obtain ⟨f, fr, hf'⟩ : ∃ f fr, stepFrames size frames s.raw = f :: fr := by
      cases h : stepFrames size frames s.raw with
      | nil => exact absurd h hne
      | cons f fr => exact ⟨f, fr, rfl⟩
    simp only [LazyState.len, hf', List.getD_cons_zero]
    exact hall f (by rw [hf']; simp)

/-- Witness for C4: size 2, empty window, observation `[[1], [2]]` of batch
size 2 — both the eager and the lazy composite report length 2. -/
theorem C4_witness :
    (1 : Int) ≤ 2 ∧
    State.len (⟨catDim1 (stepFrames 2 [] ([[1], [2]] : Obs Nat)), 1, ()⟩ :
        State (Obs Nat) Nat Unit) = 2 ∧
    LazyState.len (⟨stepFrames 2 [] ([[1], [2]] : Obs Nat), 1, ()⟩ :
        LazyState Nat Nat Unit) = 2 :=
  ⟨by decide,
    (C4_length_contract 2 [] ⟨[[1], [2]], 1, ()⟩ 2 (by decide) (by decide)
      (by simp)).1,
    (C4_length_contract 2 [] ⟨[[1], [2]], 1, ()⟩ 2 (by decide) (by decide)
      (by simp)).2⟩

lemma framesSeq_invariant {γ : Type} (size : Int) (c : Nat) (hs : 1 ≤ size) :
    ∀ (obs : List (Obs γ)) (frames : List (Obs γ)),
      (∀ o ∈ obs, ∀ r ∈ o, r.length = c) →
      (frames = [] ∨ (frames.length = size.toNat ∧
        ∀ f ∈ frames, ∀ r ∈ f, r.length = c)) →
      ∀ w ∈ framesSeq size frames obs,
        w.length = size.toNat ∧ ∀ r ∈ catDim1 w, r.length = size.toNat * c
  | [], _, _, _ => by simp [framesSeq]
  | o :: rest, frames, hc, hinv => by
      have hrows : ∀ f ∈ stepFrames size frames o, ∀ r ∈ f, r.length = c := by
        intro f hf r hr
        rcases mem_stepFrames size frames o f hf with h | h
        · rcases hinv with h' | h'
          · rw [h'] at h; simp at h
          · exact h'.2 f h r hr
        · exact hc o (by simp) r (by rw [← h]; exact hr)
      have hlen : (stepFrames size frames o).length = size.toNat := by
        rw [stepFrames_length]
        rcases hinv with h' | h'
        · simp [h']
        · have : ¬frames.isEmpty := by
            intro h
            rw [List.isEmpty_iff] at h
            rw [h] at h'
            simp at h'
            omega
          simp [this, h'.1]
      intro w hw
      simp only [framesSeq, List.mem_cons] at hw
      cases hw with
      | inl hw =>
          subst hw
          refine ⟨hlen, fun r hr => ?_⟩
          have := catDim1_row_length (stepFrames size frames o) hrows r hr
          rw [this, hlen]
      | inr hw =>
          exact framesSeq_invariant size c hs rest (stepFrames size frames o)
            (fun x hx => hc x (List.mem_cons_of_mem o hx))
            (Or.inr ⟨hlen, hrows⟩) w hw

/-- C7: window fill invariant — for `size ≥ 1` and observations of uniform
channel count `c`, after the first call every window in the trace has length
exactly `size`, and every row of the eager composite's raw (its dimension-1
slice) has `size × c` channels. -/
theorem C7_window_fill_invariant {γ : Type} (size : Int) (c : Nat)
    (obs : List (Obs γ)) (hs : 1 ≤ size)
    (hc : ∀ o ∈ obs, ∀ r ∈ o, r.length = c) :
    ∀ w ∈ framesSeq size [] obs,
      w.length = size.toNat ∧ ∀ r ∈ catDim1 w, r.length = size.toNat * c :=
  framesSeq_invariant size c hs obs [] hc (Or.inl rfl)

/-- Witness for C7: size 2, observations `[[1]]`, `[[2]]` of channel count 1;
the first window `[[[1]], [[1]]]` has length 2 and its concatenated row
`[1, 1]` has 2 × 1 channels. -/
theorem C7_witness :
    (1 : Int) ≤ 2 ∧
    [[[1]], [[1]]] ∈ framesSeq 2 [] ([[[1]], [[2]]] : List (Obs Nat)) ∧
    ([[[1]], [[1]]] : List (Obs Nat)).length = (2 : Int).toNat ∧
    [1, 1] ∈ catDim1 ([[[1]], [[1]]] : List (Obs Nat)) ∧
    ([1, 1] : List Nat).length = (2 : Int).toNat * 1 :=
  ⟨by decide, by decide,
    (C7_window_fill_invariant 2 1 [[[1]], [[2]]] (by decide) (by decide)
      [[[1]], [[1]]] (by decide)).1,
    by decide,
    (C7_window_fill_invariant 2 1 [[[1]], [[2]]] (by decide) (by decide)
      [[[1]], [[1]]] (by decide)).2 [1, 1] (by decide)⟩

/-- C8 counterexample: constructing a FrameStack with the non-positive window
size 0 does not fail fast — `__init__` performs no validation and succeeds,
returning the wrapper with its empty window. -/
theorem C8_counterexample :
    FrameStack.init (fun (c : Composite Nat Nat Unit) (_ : Nat) => c) 0 false =
      Except.ok ⟨fun c _ => c, 0, false, []⟩ :=
  rfl

/-- C8 amended: construction with a non-positive window size is not rejected:
`__init__` accepts any size and succeeds, and the failure is deferred past
construction — the first `act` call then replicates the observation a
non-positive number of times, leaving the window empty (so the error, if any,
surfaces only downstream, e.g. at the concatenation of an empty window). -/
theorem C8_no_construction_validation {γ μ ι ρ β : Type}
    (agent : Composite γ μ ι → ρ → β) (size : Int) (lz : Bool)
    (hs : size ≤ 0) :
    FrameStack.init agent size lz = Except.ok ⟨agent, size, lz, []⟩ ∧
      ∀ o : Obs γ, stepFrames size [] o = [] := by
  refine ⟨rfl, fun o => ?_⟩
  have h0 : size.toNat = 0 := by omega
  simp [stepFrames, h0]

/-- Witness for C8's amended statement at size 0: construction succeeds and
the first window update yields an empty window. -/
theorem C8_witness :
    (0 : Int) ≤ 0 ∧
    FrameStack.init (fun (c : Composite Nat Nat Unit) (_ : Nat) => c) 0 true =
      Except.ok ⟨fun c _ => c, 0, true, []⟩ ∧
    stepFrames 0 [] ([[1]] : Obs Nat) = [] :=
  ⟨by decide,
    (C8_no_construction_validation
      (fun (c : Composite Nat Nat Unit) (_ : Nat) => c) 0 true (by decide)).1,
    (C8_no_construction_validation
      (fun (c : Composite Nat Nat Unit) (_ : Nat) => c) 0 true
      (by decide)).2 [[1]]⟩

end VisionBody
